import Mathlib

/-
Verification of the fireant slicer query compiler (fireant/slicer/queries.py and
fireant/slicer/schemas.py) against its natural-language specification.

The embedding models the pypika query-builder surface exactly as fireant uses it:
terms (fields, intervals, arithmetic, aliasing), criteria (equality, conjunction),
and queries (from-table, joins, selects, group-bys, rollups, order-bys, where and
having clauses).  Reference sub-queries are identified by a numeric id (their
position in the declared reference list); the compiled result carries the list of
sub-query snapshots alongside the outer query.  Python dict / KeyError behaviour
is modelled with association lists and Except.
-/

namespace Fireant

/-- A table a field can belong to: either a named base table or one of the
reference sub-queries (identified by its position in the reference list). -/
inductive SqlTable where
  | named (name : String)
  | subquery (id : Nat)
deriving DecidableEq, Repr

/-- The fragment of pypika term syntax that queries.py builds: fields, calendar
intervals (Interval(weeks=...) / Interval(quarters=...)), subtraction, division,
and aliasing via as_. -/
inductive Term where
  | field (table : SqlTable) (name : String)
  | interval (weeks : Nat) (quarters : Nat)
  | sub (a b : Term)
  | div (a b : Term)
  | aliased (t : Term) (asName : String)
deriving DecidableEq, Repr

/-- pypika Term.for_(query): the same expression with every field rebased onto
the given table (used as dimension.for_(reference_query) in queries.py). -/
def Term.for_ : Term → SqlTable → Term
  | .field _ n, tbl => .field tbl n
  | .interval w q, _ => .interval w q
  | .sub a b, tbl => .sub (a.for_ tbl) (b.for_ tbl)
  | .div a b, tbl => .div (a.for_ tbl) (b.for_ tbl)
  | .aliased t n, tbl => .aliased (t.for_ tbl) n

/-- The alias a selected or grouped term exposes as a result column name:
the as_ alias if present, otherwise the field name. -/
def Term.aliasName : Term → String
  | .aliased _ n => n
  | .field _ n => n
  | .interval _ _ => ""
  | .sub _ _ => ""
  | .div _ _ => ""

/-- Boolean criteria as built by queries.py: equality comparisons combined
with the & operator. -/
inductive Criterion where
  | eqC (a b : Term)
  | andC (a b : Criterion)
deriving DecidableEq, Repr

/-- What a join attaches: a named table (with its join type string) or a
reference sub-query. -/
inductive JoinRef where
  | table (name : String) (how : String)
  | subq (id : Nat)
deriving DecidableEq, Repr

/-- One join clause: the joined item and its ON criterion. -/
structure Join where
  ref : JoinRef
  criterion : Criterion
deriving DecidableEq, Repr

/-- The compiled query state accumulated by QueryManager._build_query. -/
structure Query where
  fromTable : String
  joins : List Join
  selects : List Term
  groupbys : List Term
  rollups : List Term
  orderbys : List Term
  wheres : List Criterion
  havings : List Criterion
deriving DecidableEq, Repr

/-- Result of _build_query: the outer query plus the reference sub-query
snapshots, listed in declared reference order (subqueries[i] is the deep copy
taken for the i-th reference). -/
structure CompiledQuery where
  main : Query
  subqueries : List Query
deriving DecidableEq, Repr

/-- Python KeyError raised by dict lookup on a missing key. -/
inductive BuildError where
  | keyError (key : String)
deriving DecidableEq, Repr

/-- Python dict lookup (raises KeyError when absent); association list with
unique keys models the dict. -/
def dictGet (key : String) : List (String × Term) → Option Term
  | [] => none
  | kd :: rest => if kd.1 = key then some kd.2 else dictGet key rest

/-- reference_criterion from queries.py: for each reference prefix, the lambda
(key, join_key) mapsto key == join_key - Interval(...). -/
def reference_criterion : List (String × (Term → Term → Criterion)) :=
  [("yoy", fun key join_key => .eqC key (.sub join_key (.interval 52 0))),
   ("qoq", fun key join_key => .eqC key (.sub join_key (.interval 0 1))),
   ("mom", fun key join_key => .eqC key (.sub join_key (.interval 4 0))),
   ("wow", fun key join_key => .eqC key (.sub join_key (.interval 1 0)))]

/-- reference_field from queries.py: the optional modifier lambdas. -/
def reference_field : List (String × (Term → Term → Term)) :=
  [("d", fun field join_field => .sub field join_field),
   ("p", fun field join_field => .div (.sub field join_field) join_field)]

/-- Generic lookup in the two mapper tables above (Python dict indexing,
raising KeyError when the key is absent). -/
def tableLookup {β : Type} (key : String) : List (String × β) → Option β
  | [] => none
  | kv :: rest => if kv.1 = key then some kv.2 else tableLookup key rest

/-- Splitting a character list at every occurrence of the separator, keeping
empty pieces, as Python str.split with an explicit separator does. -/
def splitChars (sep : Char) : List Char → List (List Char)
  | [] => [[]]
  | c :: rest =>
    let r := splitChars sep rest
    if c = sep then [] :: r
    else
      match r with
      | [] => [[c]]
      | w :: ws => (c :: w) :: ws

/-- Python str.split(sep) for a single-character separator (for example
"wow_d".split("_") = ["wow", "d"], "wow".split("_") = ["wow"]). -/
def pySplit (sep : Char) (s : String) : List String :=
  (splitChars sep s.data).map (fun cs => String.mk cs)

/-- QueryManager._get_reference_mappers: split the reference key on the
underscore; the first part indexes reference_criterion, the optional second part
indexes reference_field, defaulting to the identity-on-joined-value lambda. -/
def getReferenceMappers (referenceKey : String) :
    Except BuildError ((Term → Term → Criterion) × (Term → Term → Term)) :=
  match pySplit '_' referenceKey with
  | [] => .error (.keyError referenceKey)
  | base :: optionalParts =>
    match tableLookup base reference_criterion with
    | none => .error (.keyError base)
    | some criterionF =>
      match optionalParts with
      | [] => .ok (criterionF, fun _field join_field => join_field)
      | modifier :: _ =>
        match tableLookup modifier reference_field with
        | none => .error (.keyError modifier)
        | some fieldF => .ok (criterionF, fieldF)

/-- QueryManager._build_reference_join_criterion: apply the criterion lambda to
the compared dimension and the sub-query field, then conjoin an equality for
every dimension that is not (Python object identity) the compared one. -/
def buildReferenceJoinCriterion (qid : Nat) (dimensions : List (String × Term))
    (criterionF : Term → Term → Criterion) (dimensionKey : String) :
    Except BuildError Criterion :=
  match dictGet dimensionKey dimensions with
  | none => .error (.keyError dimensionKey)
  | some compared =>
    .ok (dimensions.foldl
      (fun cx kd =>
        if kd.2 = compared then cx
        else .andC cx (.eqC kd.2 (kd.2.for_ (.subquery qid))))
      (criterionF compared (Term.field (.subquery qid) dimensionKey)))

/-- The non-rollup dimension selections dx of _build_query:
dimension.as_(key) for keys not in the rollup list, in declared order. -/
def dx_of (dimensions : List (String × Term)) (rollup : List String) : List Term :=
  (dimensions.filter fun kd => !(rollup.contains kd.1)).map fun kd => Term.aliased kd.2 kd.1

/-- The rollup dimension selections rx of _build_query. -/
def rx_of (dimensions : List (String × Term)) (rollup : List String) : List Term :=
  (dimensions.filter fun kd => rollup.contains kd.1).map fun kd => Term.aliased kd.2 kd.1

/-- The metric selections mx of _build_query. -/
def mx_of (metrics : List (String × Term)) : List Term :=
  metrics.map fun km => Term.aliased km.2 km.1

/-- Query.from_(table). -/
def emptyQuery (table : String) : Query :=
  { fromTable := table, joins := [], selects := [], groupbys := [], rollups := [],
    orderbys := [], wheres := [], havings := [] }

/-- Steps 1-3 of _build_query: declared joins, dimension selects with
group-by / rollup placement, metric selects.  The joins parameter carries
(join table, join criterion, join type) tuples as in the docstring. -/
def buildBase (table : String) (joins : List (String × Criterion × String))
    (metrics : List (String × Term)) (dimensions : List (String × Term))
    (rollup : List String) : Query :=
  let q := joins.foldl
    (fun q jt => { q with joins := q.joins ++ [Join.mk (JoinRef.table jt.1 jt.2.2) jt.2.1] })
    (emptyQuery table)
  let dx := dx_of dimensions rollup
  let rx := rx_of dimensions rollup
  let q := if dx.isEmpty then q
    else { q with selects := q.selects ++ dx, groupbys := q.groupbys ++ dx }
  let q := if rx.isEmpty then q
    else { q with selects := q.selects ++ rx, rollups := q.rollups ++ rx }
  { q with selects := q.selects ++ mx_of metrics }

/-- One iteration of the reference loop in _build_query: resolve the mappers,
deep-copy the query built so far as the sub-query, join it on the reference
criterion, select the comparison dimensions (when any dimensions exist) and the
comparison metrics, all aliased key_referencekey. -/
def addReference (dimensions : List (String × Term)) (metrics : List (String × Term))
    (st : Query × List Query) (ref : String × String) :
    Except BuildError (Query × List Query) :=
  match getReferenceMappers ref.1 with
  | .error e => .error e
  | .ok (criterionF, fieldF) =>
    let qid := st.2.length
    let referenceQuery := st.1
    match buildReferenceJoinCriterion qid dimensions criterionF ref.2 with
    | .error e => .error e
    | .ok cx =>
      let q := { st.1 with joins := st.1.joins ++ [Join.mk (JoinRef.subq qid) cx] }
      let q := if dimensions.isEmpty then q
        else { q with selects := q.selects ++ dimensions.map (fun kd =>
          Term.aliased (.field (.subquery qid) kd.1) (kd.1 ++ "_" ++ ref.1)) }
      let q := { q with selects := q.selects ++ metrics.map (fun km =>
        Term.aliased (fieldF km.2 (.field (.subquery qid) km.1)) (km.1 ++ "_" ++ ref.1)) }
      .ok (q, st.2 ++ [referenceQuery])

/-- The reference loop of _build_query over the declared reference list. -/
def buildRefs (dimensions : List (String × Term)) (metrics : List (String × Term))
    (references : List (String × String)) (st : Query × List Query) :
    Except BuildError (Query × List Query) :=
  references.foldlM (addReference dimensions metrics) st

/-- QueryManager._build_query: base query, reference loop, then ordering
(non-rollup then rollup), then WHERE filters and HAVING filters. -/
def buildQuery (table : String) (joins : List (String × Criterion × String))
    (metrics : List (String × Term)) (dimensions : List (String × Term))
    (mfilters dfilters : List Criterion)
    (references : List (String × String)) (rollup : List String) :
    Except BuildError CompiledQuery :=
  match buildRefs dimensions metrics references
      (buildBase table joins metrics dimensions rollup, []) with
  | .error e => .error e
  | .ok (q, subs) =>
    let dx := dx_of dimensions rollup
    let rx := rx_of dimensions rollup
    let q := if dx.isEmpty then q else { q with orderbys := q.orderbys ++ dx }
    let q := if rx.isEmpty then q else { q with orderbys := q.orderbys ++ rx }
    let q := dfilters.foldl (fun q f => { q with wheres := q.wheres ++ [f] }) q
    let q := mfilters.foldl (fun q f => { q with havings := q.havings ++ [f] }) q
    .ok ⟨q, subs⟩

/-- The ON criteria of the reference sub-query joins of a query, in join order. -/
def Query.refJoinCriteria (q : Query) : List Criterion :=
  q.joins.filterMap fun jn =>
    match jn.ref with
    | .subq _ => some jn.criterion
    | .table _ _ => none

/-- Modelled from the spec: pypika Query.groupby_aliases (the external
query-builder interface of section 6, not part of this repository) exposes the
alias names of the grouping terms, ordinary group-bys first and rollup
group-bys last; _query_data passes this list as the index of the materialized
DataFrame. -/
def Query.groupby_aliases (q : Query) : List String :=
  (q.groupbys ++ q.rollups).map Term.aliasName

/-- The index keys of the DataFrame returned by _query_data (df_idx in
queries.py line 115, passed to fetch_dataframe as index). -/
def queryDataIndex (table : String) (joins : List (String × Criterion × String))
    (metrics : List (String × Term)) (dimensions : List (String × Term))
    (mfilters dfilters : List Criterion)
    (references : List (String × String)) (rollup : List String) :
    Except BuildError (List String) :=
  (buildQuery table joins metrics dimensions mfilters dfilters references rollup).map
    fun cq => cq.main.groupby_aliases

/-- Evaluation of a term over an assignment of integer values (dates counted in
days) to fields.  Interval(weeks=w, quarters=q) is w weeks plus q quarters, a
quarter counted as 13 weeks; only week intervals occur in the theorems below.
Division is integer division (never applied to criteria in these theorems). -/
def evalTerm (env : SqlTable → String → Int) : Term → Int
  | .field t n => env t n
  | .interval w q => 7 * (w : Int) + 91 * (q : Int)
  | .sub a b => evalTerm env a - evalTerm env b
  | .div a b => evalTerm env a / evalTerm env b
  | .aliased t _ => evalTerm env t

/-- Evaluation of a criterion over a field assignment. -/
def evalCriterion (env : SqlTable → String → Int) : Criterion → Bool
  | .eqC a b => evalTerm env a == evalTerm env b
  | .andC a b => evalCriterion env a && evalCriterion env b

/-- Field assignment in which the outer (named-table) date field is day 7 and
every sub-query date field is day 14, one week later than the outer row. -/
def envLater : SqlTable → String → Int
  | .named _, _ => 7
  | .subquery _, _ => 14

/-- Field assignment in which the outer date field is day 7 and every
sub-query date field is day 0, one week prior to the outer row. -/
def envPrior : SqlTable → String → Int
  | .named _, _ => 7
  | .subquery _, _ => 0

/-- UniqueDimension from schemas.py: key, label field (stored as the
definition) and id fields. -/
structure UniqueDimension where
  key : String
  label_field : Term
  id_fields : List Term
deriving DecidableEq, Repr

/-- The definition attribute of a UniqueDimension: the constructor passes
label_field as the definition to the superclass. -/
def UniqueDimension.definition (d : UniqueDimension) : Term := d.label_field

/-- UniqueDimension.schemas: one (key_id{ordinal}, id field) pair per id field
by zero-based position, then the (key_label, definition) pair. -/
def UniqueDimension.schemas (d : UniqueDimension) : List (String × Term) :=
  (d.id_fields.enum.map fun p => (d.key ++ "_id" ++ toString p.1, p.2))
    ++ [(d.key ++ "_label", d.definition)]

/-- Shorthand for a field of the base table "t" in the concrete examples. -/
def tfield (n : String) : Term := Term.field (.named "t") n

/-- A concrete unique dimension with two id fields, used to instantiate the
schema-shape theorem. -/
def exUnique : UniqueDimension :=
  { key := "u", label_field := tfield "name", id_fields := [tfield "ida", tfield "idb"] }

/-
Helper lemmas about the query-builder folds.
-/

theorem foldl_where (l : List Criterion) (q : Query) :
    l.foldl (fun q f => { q with wheres := q.wheres ++ [f] }) q
      = { q with wheres := q.wheres ++ l } := by
  induction l generalizing q with
  | nil => simp
  | cons a l ih => simp [List.foldl_cons, ih]

theorem foldl_having (l : List Criterion) (q : Query) :
    l.foldl (fun q f => { q with havings := q.havings ++ [f] }) q
      = { q with havings := q.havings ++ l } := by
  induction l generalizing q with
  | nil => simp
  | cons a l ih => simp [List.foldl_cons, ih]

theorem foldl_tableJoins (l : List (String × Criterion × String)) (q : Query) :
    l.foldl (fun q jt => { q with joins := q.joins ++ [Join.mk (JoinRef.table jt.1 jt.2.2) jt.2.1] }) q
      = { q with joins := q.joins ++ l.map (fun jt => Join.mk (JoinRef.table jt.1 jt.2.2) jt.2.1) } := by
  induction l generalizing q with
  | nil => simp
  | cons a l ih => simp [List.foldl_cons, ih]

/-- The base query of _build_query in closed form. -/
theorem buildBase_eq (t : String) (j : List (String × Criterion × String))
    (m d : List (String × Term)) (ru : List String) :
    buildBase t j m d ru =
      { fromTable := t,
        joins := j.map (fun jt => Join.mk (JoinRef.table jt.1 jt.2.2) jt.2.1),
        selects := dx_of d ru ++ rx_of d ru ++ mx_of m,
        groupbys := dx_of d ru,
        rollups := rx_of d ru,
        orderbys := [], wheres := [], havings := [] } := by
  unfold buildBase
  rw [foldl_tableJoins]
  simp only [emptyQuery, List.nil_append]
  split
  · next hdx =>
    rw [List.isEmpty_iff] at hdx
    split
    · next hrx =>
      rw [List.isEmpty_iff] at hrx
      simp [hdx, hrx]
    · simp [hdx]
  · split
    · next hrx =>
      rw [List.isEmpty_iff] at hrx
      simp [hrx]
    · simp

theorem contains_filter_of_true (ru : List String) (p : String → Bool) (x : String)
    (hx : p x = true) : (ru.filter p).contains x = ru.contains x := by
  induction ru with
  | nil => rfl
  | cons a l ih =>
    by_cases ha : p a = true
    · by_cases hax : x = a
      · subst hax; simp [List.filter_cons, ha, ih, hx]
      · simp [List.filter_cons, ha, hax, ih, hx]
    · have hax : x ≠ a := by
        intro h
        subst h
        exact ha hx
      simp [List.filter_cons, ha, hax, ih, hx]

theorem dx_of_rollup_filter (d : List (String × Term)) (ru : List String) :
    dx_of d (ru.filter fun k => (d.map Prod.fst).contains k) = dx_of d ru := by
  unfold dx_of
  congr 1
  apply List.filter_congr
  intro kd hkd
  have hk : ((d.map Prod.fst).contains kd.1) = true := by
    simp only [List.contains, List.elem_iff]
    exact List.mem_map_of_mem Prod.fst hkd
  rw [contains_filter_of_true _ _ _ hk]

theorem rx_of_rollup_filter (d : List (String × Term)) (ru : List String) :
    rx_of d (ru.filter fun k => (d.map Prod.fst).contains k) = rx_of d ru := by
  unfold rx_of
  congr 1
  apply List.filter_congr
  intro kd hkd
  have hk : ((d.map Prod.fst).contains kd.1) = true := by
    simp only [List.contains, List.elem_iff]
    exact List.mem_map_of_mem Prod.fst hkd
  rw [contains_filter_of_true _ _ _ hk]

theorem buildBase_rollup_filter (t : String) (j : List (String × Criterion × String))
    (m d : List (String × Term)) (ru : List String) :
    buildBase t j m d (ru.filter fun k => (d.map Prod.fst).contains k) = buildBase t j m d ru := by
  rw [buildBase_eq, buildBase_eq, dx_of_rollup_filter, rx_of_rollup_filter]

/-- C5 counterexample: a request with an empty metric set and a dimension
compiles successfully — _build_query raises no configuration error, refuting
the claim that compilation fails before any query is issued. -/
theorem empty_metrics_not_rejected :
    (buildQuery "t" [] [] [("a", tfield "a")] [] [] [] []).isOk = true := rfl

/-- C5 amended: an empty metric set is not detected as an error.  With no
references, _build_query always succeeds on an empty metric dict, and the
compiled query selects exactly the dimension columns and no metric columns. -/
theorem empty_metrics_compiles (t : String) (j : List (String × Criterion × String))
    (d : List (String × Term)) (mf df : List Criterion) (ru : List String) :
    (buildQuery t j [] d mf df [] ru).map (fun cq => cq.main.selects)
      = .ok (dx_of d ru ++ rx_of d ru) := by
  unfold buildQuery buildRefs
  simp only [List.foldlM_nil, pure, Except.pure, Except.map]
  rw [foldl_where, foldl_having]
  split
  · next hdx =>
    rw [List.isEmpty_iff] at hdx
    split
    · simp [buildBase_eq, mx_of, hdx]
    · simp [buildBase_eq, mx_of, hdx]
  · split
    · simp [buildBase_eq, mx_of]
    · simp [buildBase_eq, mx_of]

/-- C6 counterexample: a request whose rollup list contains the key "b", which
is not among the dimension keys, compiles successfully and produces no rollup
grouping at all, refuting the claim that compilation fails with a
configuration error. -/
theorem unknown_rollup_key_not_rejected :
    (buildQuery "t" [] [("m", tfield "m")] [("a", tfield "a")] [] [] [] ["b"]).isOk = true
    ∧ (buildQuery "t" [] [("m", tfield "m")] [("a", tfield "a")] [] [] [] ["b"]).map
        (fun cq => cq.main.rollups) = .ok [] := ⟨rfl, rfl⟩

/-- C6 amended: rollup keys that are not dimension keys are silently ignored
rather than rejected — the compiled query is identical to the one built from
the rollup list restricted to the dimension keys, because the rollup list is
consulted only through membership tests on dimension keys. -/
theorem unknown_rollup_keys_ignored (t : String) (j : List (String × Criterion × String))
    (m d : List (String × Term)) (mf df : List Criterion)
    (refs : List (String × String)) (ru : List String) :
    buildQuery t j m d mf df refs (ru.filter fun k => (d.map Prod.fst).contains k)
      = buildQuery t j m d mf df refs ru := by
  unfold buildQuery
  rw [buildBase_rollup_filter, dx_of_rollup_filter, rx_of_rollup_filter]

theorem enumFrom_get? {α : Type} (l : List α) :
    ∀ (n i : Nat), (l.enumFrom n).get? i = (l.get? i).map fun a => (n + i, a) := by
  induction l with
  | nil => intro n i; simp
  | cons a l ih =>
    intro n i
    cases i with
    | zero => simp [List.enumFrom]
    | succ i =>
      simp only [List.enumFrom, List.get?_cons_succ, ih (n + 1) i]
      have harith : n + 1 + i = n + (i + 1) := by omega
      rw [harith]

/-- C9: expanding a unique dimension with k declared id-fields yields exactly
k+1 key/expression pairs: at each position i below k the pair
(key_id i, i-th id field), and at position k (last) the pair
(key_label, label expression). -/
theorem unique_dimension_schemas_shape (d : UniqueDimension) :
    d.schemas.length = d.id_fields.length + 1
    ∧ (∀ i, i < d.id_fields.length →
        d.schemas.get? i = (d.id_fields.get? i).map fun f => (d.key ++ "_id" ++ toString i, f))
    ∧ d.schemas.get? d.id_fields.length = some (d.key ++ "_label", d.definition) := by
  refine ⟨?_, ?_, ?_⟩
  · simp [UniqueDimension.schemas]
  · intro i hi
    unfold UniqueDimension.schemas
    rw [List.get?_append (by simpa using hi)]
    rw [List.get?_map, List.enum, enumFrom_get?]
    cases h : d.id_fields.get? i <;> simp [h]
  · unfold UniqueDimension.schemas
    rw [List.get?_append_right (by simp)]
    simp

/-- C9 witness: the shape theorem applied to a concrete unique dimension with
two id fields. -/
theorem unique_dimension_schemas_shape_apply :
    exUnique.schemas.get? 0 = some ("u_id0", tfield "ida")
    ∧ exUnique.schemas.get? 2 = some ("u_label", tfield "name") := by
  refine ⟨?_, ?_⟩
  · have h := (unique_dimension_schemas_shape exUnique).2.1 0 (by decide)
    simpa using h
  · exact (unique_dimension_schemas_shape exUnique).2.2

/-- C3: whenever a reference key resolves, the resolved value-derivation
function is determined by the optional suffix after the underscore: with no
suffix it returns the joined (prior-period) value unchanged, with suffix d it
returns current minus joined, and with suffix p it returns
(current minus joined) divided by joined. -/
theorem reference_field_by_suffix (refKey : String) (c j : Term) :
    (getReferenceMappers refKey).toOption.map (fun p => p.2 c j)
      = (getReferenceMappers refKey).toOption.map (fun _ =>
          if (pySplit '_' refKey).drop 1 = [] then j
          else if ((pySplit '_' refKey).drop 1).head? = some "d" then Term.sub c j
          else if ((pySplit '_' refKey).drop 1).head? = some "p" then
            Term.div (Term.sub c j) j
          else j) := by
  unfold getReferenceMappers
  cases hs : pySplit '_' refKey with
  | nil => simp [Except.toOption]
  | cons base rest =>
    cases ho : tableLookup base reference_criterion with
    | none => simp [ho, Except.toOption]
    | some cf =>
      cases rest with
      | nil => simp [ho, Except.toOption]
      | cons m rest2 =>
        cases hm : tableLookup m reference_field with
        | none => simp [ho, hm, Except.toOption]
        | some ff =>
          have hff : (m = "d" ∧ ff = fun field join_field => Term.sub field join_field)
              ∨ (m = "p" ∧ ff = fun field join_field =>
                  Term.div (Term.sub field join_field) join_field) := by
            by_cases hd : m = "d"
            · left
              refine ⟨hd, ?_⟩
              subst hd
              simp [tableLookup, reference_field] at hm
              exact hm.symm
            · by_cases hp : m = "p"
              · right
                refine ⟨hp, ?_⟩
                subst hp
                simp [tableLookup, reference_field] at hm
                exact hm.symm
              · exfalso
                simp [tableLookup, reference_field, Ne.symm hd, Ne.symm hp] at hm
          rcases hff with ⟨hd, hffv⟩ | ⟨hp, hffv⟩
          · subst hd hffv
            simp [ho, hm, Except.toOption]
          · subst hp hffv
            simp [ho, hm, Except.toOption]

theorem addReference_spec (d m : List (String × Term)) (st : Query × List Query)
    (r : String × String) (out : Query × List Query)
    (h : addReference d m st r = .ok out) :
    out.2 = st.2 ++ [st.1]
    ∧ out.1.fromTable = st.1.fromTable
    ∧ out.1.groupbys = st.1.groupbys
    ∧ out.1.rollups = st.1.rollups
    ∧ out.1.orderbys = st.1.orderbys
    ∧ out.1.wheres = st.1.wheres
    ∧ out.1.havings = st.1.havings := by
  unfold addReference at h
  cases hm : getReferenceMappers r.1 with
  | error e => simp only [hm] at h; exact absurd h (by simp)
  | ok p =>
    obtain ⟨cF, fF⟩ := p
    simp only [hm] at h
    cases hc : buildReferenceJoinCriterion st.2.length d cF r.2 with
    | error e => simp only [hc] at h; exact absurd h (by simp)
    | ok cx =>
      simp only [hc] at h
      injection h with h2
      subst h2
      refine ⟨rfl, ?_, ?_, ?_, ?_, ?_, ?_⟩ <;> (split <;> rfl)

theorem buildRefs_nil (d m : List (String × Term)) (st : Query × List Query) :
    buildRefs d m [] st = .ok st := rfl

theorem buildRefs_cons (d m : List (String × Term)) (r : String × String)
    (refs : List (String × String)) (st : Query × List Query) :
    buildRefs d m (r :: refs) st
      = (addReference d m st r).bind (buildRefs d m refs) := by
  unfold buildRefs
  rw [List.foldlM_cons]
  rfl

theorem buildRefs_fields (d m : List (String × Term)) (refs : List (String × String)) :
    ∀ (st : Query × List Query) (q : Query) (s : List Query),
    buildRefs d m refs st = .ok (q, s) →
    q.fromTable = st.1.fromTable
    ∧ q.groupbys = st.1.groupbys
    ∧ q.rollups = st.1.rollups
    ∧ q.orderbys = st.1.orderbys
    ∧ q.wheres = st.1.wheres
    ∧ q.havings = st.1.havings := by
  induction refs with
  | nil =>
    intro st q s h
    rw [buildRefs_nil] at h
    injection h with h2
    subst h2
    exact ⟨rfl, rfl, rfl, rfl, rfl, rfl⟩
  | cons r refs ih =>
    intro st q s h
    rw [buildRefs_cons] at h
    cases ha : addReference d m st r with
    | error e => rw [ha] at h; exact absurd h (by simp [Except.bind])
    | ok st1 =>
      rw [ha] at h
      have hspec := addReference_spec d m st r st1 ha
      have hrest := ih st1 q s h
      exact ⟨hrest.1.trans hspec.2.1, hrest.2.1.trans hspec.2.2.1,
        hrest.2.2.1.trans hspec.2.2.2.1, hrest.2.2.2.1.trans hspec.2.2.2.2.1,
        hrest.2.2.2.2.1.trans hspec.2.2.2.2.2.1, hrest.2.2.2.2.2.trans hspec.2.2.2.2.2.2⟩

/-- Each stored sub-query is the state of the outer query at the moment its
deep copy was taken: the snapshot at position j equals the main query produced
by processing only the first j references. -/
theorem buildRefs_snapshot_aux (d m : List (String × Term)) :
    ∀ (refs : List (String × String)) (q0 : Query) (s0 : List Query) (q : Query) (s : List Query),
    buildRefs d m refs (q0, s0) = .ok (q, s) →
    (∃ t, s = s0 ++ t ∧ t.length = refs.length)
    ∧ ∀ jdx, jdx < refs.length →
        ∃ qj sj, buildRefs d m (refs.take jdx) (q0, s0) = .ok (qj, sj)
          ∧ s.get? (s0.length + jdx) = some qj := by
  intro refs
  induction refs with
  | nil =>
    intro q0 s0 q s h
    rw [buildRefs_nil] at h
    injection h with h2
    injection h2 with hq hs
    subst hq
    subst hs
    refine ⟨⟨[], by simp, rfl⟩, ?_⟩
    intro jdx hj
    exact absurd hj (Nat.not_lt_zero _)
  | cons r refs ih =>
    intro q0 s0 q s h
    rw [buildRefs_cons] at h
    cases ha : addReference d m (q0, s0) r with
    | error e => rw [ha] at h; exact absurd h (by simp [Except.bind])
    | ok st1 =>
      rw [ha] at h
      have h' : buildRefs d m refs st1 = .ok (q, s) := h
      obtain ⟨q1, s1⟩ := st1
      have hspec := addReference_spec d m (q0, s0) r (q1, s1) ha
      have hsub : s1 = s0 ++ [q0] := hspec.1
      subst hsub
      obtain ⟨⟨t, hts, htl⟩, hsnap⟩ := ih q1 (s0 ++ [q0]) q s h'
      constructor
      · exact ⟨q0 :: t, by simp [hts], by simp [htl]⟩
      · intro jdx hj
        cases jdx with
        | zero =>
          refine ⟨q0, s0, buildRefs_nil d m (q0, s0), ?_⟩
          simp only [Nat.add_zero]
          rw [hts, List.append_assoc]
          rw [List.get?_append_right (Nat.le_refl _)]
          simp
        | succ jdx =>
          have hj' : jdx < refs.length := Nat.lt_of_succ_lt_succ hj
          obtain ⟨qj, sj, hrec, hg⟩ := hsnap jdx hj'
          refine ⟨qj, sj, ?_, ?_⟩
          · rw [List.take_succ_cons, buildRefs_cons, ha]
            exact hrec
          · have hidx : s0.length + (jdx + 1) = (s0 ++ [q0]).length + jdx := by
              simp only [List.length_append, List.length_singleton]
              omega
            rw [hidx]
            exact hg

/-- C7: reference sub-queries are isolated snapshots.  The stored sub-queries
do not depend on the filter lists (which mutate the outer query only after
every copy is taken), and the sub-query stored at position j equals the outer
query as compiled after processing exactly the first j references — later
joins, selects, orderings and filters applied to the outer query leave it
unchanged. -/
theorem reference_subqueries_snapshot (t : String) (j : List (String × Criterion × String))
    (m d : List (String × Term)) (mf df : List Criterion)
    (refs : List (String × String)) (ru : List String) (jdx : Nat)
    (hj : jdx < refs.length) :
    ((buildQuery t j m d mf df refs ru).map CompiledQuery.subqueries
        = (buildQuery t j m d [] [] refs ru).map CompiledQuery.subqueries)
    ∧ (buildQuery t j m d mf df refs ru).map (fun cq => cq.subqueries.get? jdx)
        = (buildQuery t j m d mf df refs ru).map (fun _ =>
            (buildRefs d m (refs.take jdx) (buildBase t j m d ru, [])).toOption.map Prod.fst) := by
  unfold buildQuery
  cases hb : buildRefs d m refs (buildBase t j m d ru, []) with
  | error e => exact ⟨by simp [hb, Except.map], by simp [hb, Except.map]⟩
  | ok pair =>
    obtain ⟨q, s⟩ := pair
    obtain ⟨hstruct, hsnap⟩ := buildRefs_snapshot_aux d m refs (buildBase t j m d ru) [] q s hb
    obtain ⟨qj, sj, hrec, hg⟩ := hsnap jdx hj
    simp only [hb, Except.map]
    constructor
    · trivial
    · have hg' : s.get? jdx = some qj := by simpa using hg
      rw [hrec, hg']
      rfl

/-- C7 witness: the snapshot theorem applied to a concrete single-reference
request carrying one aggregate filter. -/
theorem reference_subqueries_snapshot_apply :
    ((buildQuery "t" [] [("clicks", tfield "clicks")] [("d", tfield "d")]
        [Criterion.eqC (tfield "clicks") (tfield "clicks")] [] [("wow", "d")] []).map
          CompiledQuery.subqueries
      = (buildQuery "t" [] [("clicks", tfield "clicks")] [("d", tfield "d")]
        [] [] [("wow", "d")] []).map CompiledQuery.subqueries)
    ∧ (buildQuery "t" [] [("clicks", tfield "clicks")] [("d", tfield "d")]
        [Criterion.eqC (tfield "clicks") (tfield "clicks")] [] [("wow", "d")] []).map
          (fun cq => cq.subqueries.get? 0)
      = (buildQuery "t" [] [("clicks", tfield "clicks")] [("d", tfield "d")]
        [Criterion.eqC (tfield "clicks") (tfield "clicks")] [] [("wow", "d")] []).map
          (fun _ =>
            (buildRefs [("d", tfield "d")] [("clicks", tfield "clicks")]
              ([("wow", "d")].take 0)
              (buildBase "t" [] [("clicks", tfield "clicks")] [("d", tfield "d")] [], [])).toOption.map
              Prod.fst) :=
  reference_subqueries_snapshot "t" [] [("clicks", tfield "clicks")] [("d", tfield "d")]
    [Criterion.eqC (tfield "clicks") (tfield "clicks")] [] [("wow", "d")] [] 0 (by decide)

/-- C10: reference sub-queries carry no filter predicates at all — every
stored sub-query has empty WHERE and HAVING lists, because _build_query
attaches dfilters and mfilters to the outer query only after the reference
loop has deep-copied and joined every sub-query. -/
theorem reference_subqueries_unfiltered (t : String) (j : List (String × Criterion × String))
    (m d : List (String × Term)) (mf df : List Criterion)
    (refs : List (String × String)) (ru : List String) :
    (buildQuery t j m d mf df refs ru).map
        (fun cq => cq.subqueries.all fun sq => sq.wheres.isEmpty && sq.havings.isEmpty)
      = (buildQuery t j m d mf df refs ru).map (fun _ => true) := by
  unfold buildQuery
  cases hb : buildRefs d m refs (buildBase t j m d ru, []) with
  | error e => simp [hb, Except.map]
  | ok pair =>
    obtain ⟨q, s⟩ := pair
    obtain ⟨hstruct, hsnap⟩ := buildRefs_snapshot_aux d m refs (buildBase t j m d ru) [] q s hb
    have hall : s.all (fun sq => sq.wheres.isEmpty && sq.havings.isEmpty) = true := by
      rw [List.all_eq_true]
      intro sq hsq
      obtain ⟨jdx, hjs⟩ := List.mem_iff_get?.1 hsq
      have hjlt : jdx < refs.length := by
        obtain ⟨tl, hts, htl⟩ := hstruct
        have : jdx < s.length := by
          cases hlt : Nat.decLt jdx s.length with
          | isTrue hp => exact hp
          | isFalse hp =>
            rw [List.get?_eq_none.2 (Nat.le_of_not_lt hp)] at hjs
            exact absurd hjs (by simp)
        rw [hts] at this
        simpa [htl] using this
      obtain ⟨qj, sj, hrec, hg⟩ := hsnap jdx hjlt
      have hq : sq = qj := by
        have hg' : s.get? jdx = some qj := by simpa using hg
        rw [hjs] at hg'
        injection hg'
      have hfq := buildRefs_fields d m (refs.take jdx) (buildBase t j m d ru, []) qj sj hrec
      have hw : qj.wheres = [] := by rw [hfq.2.2.2.2.1]; simp [buildBase_eq]
      have hh : qj.havings = [] := by rw [hfq.2.2.2.2.2]; simp [buildBase_eq]
      subst hq
      simp [hw, hh]
    simp only [hb, Except.map, hall]

theorem aliasName_dx (d : List (String × Term)) (ru : List String) :
    (dx_of d ru).map Term.aliasName
      = (d.filter fun kd => !(ru.contains kd.1)).map Prod.fst := by
  unfold dx_of
  rw [List.map_map]
  rfl

theorem aliasName_rx (d : List (String × Term)) (ru : List String) :
    (rx_of d ru).map Term.aliasName
      = (d.filter fun kd => ru.contains kd.1).map Prod.fst := by
  unfold rx_of
  rw [List.map_map]
  rfl

/-- C8: the compiled ordering lists the non-rollup dimension selections first
(in declared dimension order) and the rollup dimension selections last, and
the index of the materialized result is the list of non-rollup dimension keys
in declared order followed by the rollup dimension keys. -/
theorem ordering_and_index_layout (t : String) (j : List (String × Criterion × String))
    (m d : List (String × Term)) (mf df : List Criterion)
    (refs : List (String × String)) (ru : List String) :
    (buildQuery t j m d mf df refs ru).map (fun cq => cq.main.orderbys)
        = (buildQuery t j m d mf df refs ru).map (fun _ => dx_of d ru ++ rx_of d ru)
    ∧ queryDataIndex t j m d mf df refs ru
        = (buildQuery t j m d mf df refs ru).map (fun _ =>
            ((d.filter fun kd => !(ru.contains kd.1)).map Prod.fst)
              ++ ((d.filter fun kd => ru.contains kd.1).map Prod.fst)) := by
  unfold queryDataIndex buildQuery
  cases hb : buildRefs d m refs (buildBase t j m d ru, []) with
  | error e => exact ⟨by simp [hb, Except.map], by simp [hb, Except.map]⟩
  | ok pair =>
    obtain ⟨q, s⟩ := pair
    have hf := buildRefs_fields d m refs (buildBase t j m d ru, []) q s hb
    have ho : q.orderbys = [] := by rw [hf.2.2.2.1]; simp [buildBase_eq]
    have hgb : q.groupbys = dx_of d ru := by rw [hf.2.1]; simp [buildBase_eq]
    have hrl : q.rollups = rx_of d ru := by rw [hf.2.2.1]; simp [buildBase_eq]
    simp only [hb, Except.map, foldl_where, foldl_having, Query.groupby_aliases]
    constructor
    · split
      · next hrxe =>
        rw [List.isEmpty_iff] at hrxe
        split
        · next hdxe =>
          rw [List.isEmpty_iff] at hdxe
          simp [ho, hdxe, hrxe]
        · simp [ho, hrxe]
      · split
        · next hdxe =>
          rw [List.isEmpty_iff] at hdxe
          simp [ho, hdxe]
        · simp [ho]
    · split
      · split
        · simp [hgb, hrl, aliasName_dx, aliasName_rx]
        · simp [hgb, hrl, aliasName_dx, aliasName_rx]
      · split
        · simp [hgb, hrl, aliasName_dx, aliasName_rx]
        · simp [hgb, hrl, aliasName_dx, aliasName_rx]

theorem dictGet_mem (k : String) (l : List (String × Term)) (v : Term)
    (h : dictGet k l = some v) : (k, v) ∈ l := by
  induction l with
  | nil => simp [dictGet] at h
  | cons kd rest ih =>
    rw [dictGet] at h
    by_cases hk : kd.1 = k
    · rw [if_pos hk] at h
      injection h with h2
      subst hk
      subst h2
      exact List.mem_cons_self _ _
    · rw [if_neg hk] at h
      exact List.mem_cons_of_mem _ (ih h)

theorem dictGet_of_mem_nodup (l : List (String × Term)) (k : String) (v : Term)
    (hnd : (l.map Prod.fst).Nodup) (hm : (k, v) ∈ l) : dictGet k l = some v := by
  induction l with
  | nil => simp at hm
  | cons kd rest ih =>
    rw [dictGet]
    rw [List.map_cons] at hnd
    have hnd' := List.nodup_cons.1 hnd
    rcases List.mem_cons.1 hm with heq | htail
    · rw [← heq]
      simp
    · by_cases hk : kd.1 = k
      · exfalso
        have hkm : k ∈ rest.map Prod.fst := List.mem_map_of_mem Prod.fst htail
        rw [hk] at hnd'
        exact hnd'.1 hkm
      · rw [if_neg hk]
        exact ih hnd'.2 htail

theorem key_eq_of_pairwise_ne (l : List (String × Term))
    (hpw : (l.map Prod.snd).Pairwise (· ≠ ·)) (k₁ k₂ : String) (v : Term)
    (h1 : (k₁, v) ∈ l) (h2 : (k₂, v) ∈ l) : k₁ = k₂ := by
  induction l with
  | nil => simp at h1
  | cons kd rest ih =>
    rw [List.map_cons] at hpw
    have hpw' := List.pairwise_cons.1 hpw
    rcases List.mem_cons.1 h1 with e1 | t1
    · rcases List.mem_cons.1 h2 with e2 | t2
      · exact congrArg Prod.fst (e1.trans e2.symm)
      · exfalso
        have hv : kd.2 = v := by rw [← e1]
        have hvm : v ∈ rest.map Prod.snd := List.mem_map_of_mem Prod.snd t2
        exact hpw'.1 v hvm hv
    · rcases List.mem_cons.1 h2 with e2 | t2
      · exfalso
        have hv : kd.2 = v := by rw [← e2]
        have hvm : v ∈ rest.map Prod.snd := List.mem_map_of_mem Prod.snd t1
        exact hpw'.1 v hvm hv
      · exact ih hpw'.2 t1 t2

theorem foldl_skip (cmp : Term) (e : (String × Term) → Criterion) :
    ∀ (l : List (String × Term)) (c : Criterion),
    l.foldl (fun cx kd => if kd.2 = cmp then cx else .andC cx (e kd)) c
      = ((l.filter fun kd => !(kd.2 == cmp)).map e).foldl Criterion.andC c := by
  intro l
  induction l with
  | nil => intro c; rfl
  | cons kd rest ih =>
    intro c
    rw [List.foldl_cons, List.filter_cons]
    by_cases hkd : kd.2 = cmp
    · have hb : (!(kd.2 == cmp)) = false := by simp [hkd]
      rw [if_pos hkd, hb]
      simp only [Bool.false_eq_true, if_false]
      exact ih c
    · have hb : (!(kd.2 == cmp)) = true := by simp [hkd]
      rw [if_neg hkd, hb]
      simp only [if_true]
      rw [List.map_cons, List.foldl_cons]
      exact ih (Criterion.andC c (e kd))

/-- The reference join criterion in closed form: when the dimension dict has
unique keys and pairwise-distinct expressions (so that Python object identity
coincides with key identity), the criterion is the time-shift comparison on the
referenced dimension conjoined, left to right, with one equality per other
dimension in declared order. -/
theorem buildReferenceJoinCriterion_eq (qid : Nat) (d : List (String × Term))
    (cf : Term → Term → Criterion) (dkey : String) (compared : Term)
    (hl : dictGet dkey d = some compared)
    (hnd : (d.map Prod.fst).Nodup)
    (hpw : (d.map Prod.snd).Pairwise (· ≠ ·)) :
    buildReferenceJoinCriterion qid d cf dkey
      = .ok (((d.filter fun kd => !(kd.1 == dkey)).map fun kd =>
            Criterion.eqC kd.2 (kd.2.for_ (SqlTable.subquery qid))).foldl Criterion.andC
          (cf compared (Term.field (.subquery qid) dkey))) := by
  unfold buildReferenceJoinCriterion
  simp only [hl]
  rw [foldl_skip]
  have hfilter : (d.filter fun kd => !(kd.2 == compared))
      = (d.filter fun kd => !(kd.1 == dkey)) := by
    apply List.filter_congr
    intro kd hkd
    have hmem : (dkey, compared) ∈ d := dictGet_mem _ _ _ hl
    by_cases h2 : kd.2 = compared
    · have hmem' : (kd.1, compared) ∈ d := by
        rw [← h2]
        exact hkd
      have hk : kd.1 = dkey := key_eq_of_pairwise_ne d hpw kd.1 dkey compared hmem' hmem
      simp [h2, hk]
    · have hk : kd.1 ≠ dkey := by
        intro he
        have hmem' : (dkey, kd.2) ∈ d := by
          rw [← he]
          exact hkd
        have := dictGet_of_mem_nodup d dkey kd.2 hnd hmem'
        rw [hl] at this
        injection this with hcv
        exact h2 hcv.symm
      simp [h2, hk]
  rw [hfilter]

theorem refJoinCriteria_tableJoins (l : List (String × Criterion × String)) :
    (List.map (fun jt => Join.mk (JoinRef.table jt.1 jt.2.2) jt.2.1) l).filterMap
      (fun jn => match jn.ref with
        | .subq _ => some jn.criterion
        | .table _ _ => none) = [] := by
  induction l with
  | nil => rfl
  | cons a l ih =>
    rw [List.map_cons, List.filterMap_cons]
    exact ih

/-- C2: in a request with a reference, the criterion attached to the reference
sub-query join is the resolved time-shift criterion applied to the referenced
dimension and the sub-query field of the same key, conjoined (left to right,
in declared dimension order) with one equality per remaining dimension between
its expression and that expression rebased onto the sub-query.  The hypotheses
state that the dimension dict has unique keys and pairwise-distinct expression
objects, under which Python object identity agrees with structural identity. -/
theorem reference_join_criterion_structure
    (t : String) (j : List (String × Criterion × String))
    (m d : List (String × Term)) (mf df : List Criterion)
    (refKey dkey : String) (ru : List String)
    (cf : Term → Term → Criterion) (ff : Term → Term → Term) (compared : Term)
    (hm : getReferenceMappers refKey = .ok (cf, ff))
    (hl : dictGet dkey d = some compared)
    (hnd : (d.map Prod.fst).Nodup)
    (hpw : (d.map Prod.snd).Pairwise (· ≠ ·)) :
    (buildQuery t j m d mf df [(refKey, dkey)] ru).map (fun cq => cq.main.refJoinCriteria)
      = .ok [((d.filter fun kd => !(kd.1 == dkey)).map fun kd =>
            Criterion.eqC kd.2 (kd.2.for_ (SqlTable.subquery 0))).foldl Criterion.andC
          (cf compared (Term.field (.subquery 0) dkey))] := by
  have hcx := buildReferenceJoinCriterion_eq 0 d cf dkey compared hl hnd hpw
  unfold buildQuery buildRefs
  rw [List.foldlM_cons]
  unfold addReference
  simp only [hm, List.length_nil, hcx, List.foldlM_nil, bind, Except.bind, pure, Except.pure]
  rw [foldl_where, foldl_having]
  simp only [Except.map]
  unfold Query.refJoinCriteria
  split <;> split <;> split <;>
    simp [buildBase_eq, refJoinCriteria_tableJoins, List.filterMap_append]

/-- C2 witness: the join-criterion structure theorem applied to a concrete
request with two dimensions and one wow reference on dimension d. -/
theorem reference_join_criterion_structure_apply :
    (buildQuery "t" [] [("clicks", tfield "clicks")] [("d", tfield "d"), ("c", tfield "c")]
        [] [] [("wow", "d")] []).map (fun cq => cq.main.refJoinCriteria)
      = .ok [(([("d", tfield "d"), ("c", tfield "c")].filter fun kd => !(kd.1 == "d")).map
            (fun kd => Criterion.eqC kd.2 (kd.2.for_ (SqlTable.subquery 0)))).foldl
          Criterion.andC
          ((fun key join_key => Criterion.eqC key (Term.sub join_key (Term.interval 1 0)))
            (tfield "d") (Term.field (.subquery 0) "d"))] :=
  reference_join_criterion_structure "t" [] [("clicks", tfield "clicks")]
    [("d", tfield "d"), ("c", tfield "c")] [] [] "wow" "d" []
    (fun key join_key => Criterion.eqC key (Term.sub join_key (Term.interval 1 0)))
    (fun _field join_field => join_field) (tfield "d")
    rfl rfl (by decide) (by decide)

/-- C1 (divergence exhibit): for the request metrics {clicks}, dimension {d},
references {wow: d}, the compiled reference join criterion — d equals
sub_query.d minus one week, as built from reference_criterion — accepts the
assignment envLater in which the sub-query date is one week AFTER the outer
date, and rejects envPrior in which it is one week prior; yet it is envPrior,
not envLater, that satisfies the claimed relation sub_query.d = d − 1 week.
The compiled criterion therefore joins each row to the row one week later,
contradicting the claim and the docstring of queries.py (values one week
prior). -/
theorem wow_join_criterion_direction :
    ((buildQuery "t" [] [("clicks", tfield "clicks")] [("d", tfield "d")] [] []
        [("wow", "d")] []).map
      (fun cq => cq.main.refJoinCriteria.map
        (fun c => (evalCriterion envLater c, evalCriterion envPrior c))) = .ok [(true, false)])
    ∧ envPrior (.subquery 0) "d" = envPrior (.named "t") "d" - 7
    ∧ ¬ (envLater (.subquery 0) "d" = envLater (.named "t") "d" - 7) :=
  ⟨rfl, by decide, by decide⟩

end Fireant
